import Mathlib

/-!
Verification development for the UrbanSound8K-to-JAMS parser
(`src/parsers/urbansound8k_parser.py`).

The script reads a CSV metadata table and, for each row, builds one JAMS
annotation document and writes it to an output file whose name is derived
from the row's `slice_file_name` by Python's `str.replace(".wav", ".jams")`.

Shallow embedding choices:
- A CSV cell value is either a string or a number (`Value`); numbers are
  modelled as rationals (the script only ever subtracts them).
- A row (pandas `Series`) is an association list from column name to value
  (`Row`); `Row.get` is `row[key]`, returning `none` on a missing key
  (Python `KeyError`).
- Fallible Python operations (key lookup, numeric subtraction on
  non-numeric cells, `.replace` on a non-string) are modelled with
  `Option`: `none` is the fatal exception the spec calls a MappingError.
- Writing a file (`jam.save`) can fail with a WriteError; the environment
  is abstracted as a predicate `cw : String → JAMS → Bool` saying whether
  saving a given document at a given path succeeds.
-/

/-- A cell value of the metadata table: a string or a numeric value. -/
inductive Value where
  | str (s : String)
  | num (q : ℚ)
deriving DecidableEq, Repr

/-- An input record: one row of the metadata table, as an association list
from column name to cell value (mirrors a pandas `Series`). -/
abbrev Row := List (String × Value)

/-- `Row.get row k` embeds the Python lookup `row[k]`: the value of the
first column named `k`, or `none` (Python `KeyError`) if absent. -/
def Row.get (row : Row) (k : String) : Option Value :=
  (List.find? (fun p => p.1 = k) row).map Prod.snd

/-- `row[k]` when the cell must be a string (e.g. before calling a string
method on it); `none` if the key is absent or the cell is not a string. -/
def Row.getStr (row : Row) (k : String) : Option String :=
  match Row.get row k with
  | some (Value.str s) => some s
  | _ => none

/-- Curator / annotator provenance record (`jams.Curator`). -/
structure Curator where
  name : String
  email : String
deriving DecidableEq, Repr

/-- The annotation-metadata block of a JAMS annotation. -/
structure AnnotationMetadata where
  annotation_tools : String
  curator : Curator
  annotator : List Curator
  version : String
  corpus : String
  annotation_rules : String
  data_source : String
  validation : String
deriving DecidableEq, Repr

/-- One time-labelled event of an annotation (`ann.append(...)`). -/
structure Observation where
  time : ℚ
  duration : ℚ
  value : Value
  confidence : ℚ
deriving DecidableEq, Repr

/-- One annotation block of a JAMS document (`jams.Annotation`); `nspace`
embeds the `namespace` attribute. -/
structure AnnotationBlock where
  nspace : String
  data : List Observation
  duration : ℚ
  annotation_metadata : AnnotationMetadata
  sandbox : List (String × Value)
deriving DecidableEq, Repr

/-- The file-metadata block of a JAMS document. `title` is a raw cell
value, since the script assigns `row['slice_file_name']` unchecked. -/
structure FileMetadata where
  title : Value
  release : String
  duration : ℚ
  artist : String
deriving DecidableEq, Repr

/-- A JAMS document, restricted to the parts this script populates. -/
structure JAMS where
  file_metadata : FileMetadata
  annotations : List AnnotationBlock
deriving DecidableEq, Repr

/-- Embeds `fill_file_metadata`: fills title (= `row['slice_file_name']`),
release `'1.0'`, duration (= `row['end'] - row['start']`), artist
`'UrbanSound8K'`. `none` when a key is missing or the subtraction is not
between numbers (Python KeyError / TypeError). -/
def fill_file_metadata (row : Row) : Option FileMetadata :=
  match Row.get row "slice_file_name", Row.get row "end", Row.get row "start" with
  | some t, some (Value.num e), some (Value.num s) =>
      some { title := t, release := "1.0", duration := e - s, artist := "UrbanSound8K" }
  | _, _, _ => none

/-- Embeds `fill_annotation_metadata`: the fixed provenance constants, and
the whole input row stashed into the annotation sandbox
(`ann.sandbox.update(**row)`). This part cannot fail. -/
def fill_annotation_metadata (row : Row) : AnnotationMetadata × List (String × Value) :=
  ({ annotation_tools := "Sonic Visualiser"
     curator := { name := "Justin Salamon", email := "justin.salamon@nyu.edu" }
     annotator := [{ name := "Justin Salamon", email := "justin.salamon@nyu.edu" },
                   { name := "Christopher Jacoby", email := "christopher.jacoby@gmail.com" }]
     version := "1.0"
     corpus := "UrbanSound8K"
     annotation_rules := "See: J. Salamon, C. Jacoby and J. P. Bello, \"A Dataset and Taxonomy for Urban Sound Research\", in Proc. 22nd ACM International Conference on Multimedia, Orlando, USA, Nov. 2014."
     data_source := "https://serv.cusp.nyu.edu/projects/urbansounddataset/"
     validation := "" }, row)

/-- Embeds `create_snippet_jam`: builds the JAMS document for one row.
The annotation gets namespace `'tag_open'` and one event
`{time: 0, duration: end - start, value: class, confidence: 1.0}`; the
annotation's own duration is also `end - start`; `fill_file_metadata` and
`fill_annotation_metadata` fill the other blocks. `none` models the
uncaught exception when `end - start` is not a numeric subtraction or a
required key is missing. -/
def create_snippet_jam (row : Row) : Option JAMS :=
  match Row.get row "end", Row.get row "start", Row.get row "class" with
  | some (Value.num e), some (Value.num s), some cls =>
      match fill_file_metadata row with
      | some fm =>
          let am := fill_annotation_metadata row
          some { file_metadata := fm
                 annotations := [{ nspace := "tag_open"
                                   data := [{ time := 0, duration := e - s,
                                              value := cls, confidence := 1 }]
                                   duration := e - s
                                   annotation_metadata := am.1
                                   sandbox := am.2 }] }
      | none => none
  | _, _, _ => none

/-- Embeds Python's `name.replace(".wav", ".jams")` specialised to the
constant arguments the script uses: scan left to right, replacing each
(leftmost, non-overlapping) occurrence of `.wav` by `.jams`. -/
def replaceWavJams : List Char → List Char
  | '.' :: 'w' :: 'a' :: 'v' :: rest => '.' :: 'j' :: 'a' :: 'm' :: 's' :: replaceWavJams rest
  | c :: rest => c :: replaceWavJams rest
  | [] => []

/-- Whether the substring `.wav` occurs anywhere in the character list. -/
def containsWav : List Char → Bool
  | '.' :: 'w' :: 'a' :: 'v' :: _ => true
  | _ :: rest => containsWav rest
  | [] => false

/-- Embeds `os.path.join(d, f)` for two POSIX path components: an absolute
second component wins; otherwise concatenate, inserting `/` unless the
first component is empty or already ends with `/`. -/
def joinPath (d f : String) : String :=
  if f.data.head? = some '/' then f
  else if d = "" ∨ d.data.getLast? = some '/' then String.mk (d.data ++ f.data)
  else String.mk (d.data ++ '/' :: f.data)

/-- Embeds the output-path computation of `process_metadata`:
`os.path.join(out_dir, row['slice_file_name'].replace(".wav", ".jams"))`.
`none` when `slice_file_name` is missing or not a string (the `.replace`
call would raise). -/
def out_file (out_dir : String) (row : Row) : Option String :=
  (Row.getStr row "slice_file_name").map
    (fun n => joinPath out_dir (String.mk (replaceWavJams n.data)))

/-- One iteration of the `process_metadata` loop for one row: build the
document, compute the output path, save it. `cw path jam` abstracts
whether `jam.save(path)` succeeds; the result is the written
(path, document) pair, or `none` if the row raised a mapping error or the
save failed. -/
def process_row (cw : String → JAMS → Bool) (out_dir : String) (row : Row) :
    Option (String × JAMS) :=
  match create_snippet_jam row, out_file out_dir row with
  | some jam, some f => if cw f jam then some (f, jam) else none
  | _, _ => none

/-- Embeds the `process_metadata` loop over the loaded table: process rows
in order; on the first failing row stop, returning the files already
written (in order) and the index of the failing row (`none` on full
success, mirroring that the Python exception aborts the run while files
already written remain on disk). -/
def process_metadata (cw : String → JAMS → Bool) (out_dir : String) :
    List Row → List (String × JAMS) × Option Nat
  | [] => ([], none)
  | row :: rest =>
      match process_row cw out_dir row with
      | none => ([], some 0)
      | some fj =>
          let r := process_metadata cw out_dir rest
          (fj :: r.1, r.2.map (· + 1))

/-- Elementwise all-or-nothing Option map: `some` of the list of images
when `f` succeeds on every element, `none` otherwise. Used only to state
that a run's outputs correspond one-to-one, in order, to its input rows. -/
def mapOption (f : Row → Option (String × JAMS)) :
    List Row → Option (List (String × JAMS))
  | [] => some []
  | r :: rs =>
      match f r, mapOption f rs with
      | some x, some xs => some (x :: xs)
      | _, _ => none

/-! ### Example inputs used by witnesses -/

/-- The spec's end-to-end example row (with the full CSV column set). -/
def exRow : Row :=
  [("slice_file_name", Value.str "100032-3-0-0.wav"), ("fsID", Value.num 100032),
   ("start", Value.num 0), ("end", Value.num 4),
   ("salience", Value.num 1), ("fold", Value.num 5),
   ("classID", Value.num 3), ("class", Value.str "dog_bark")]

/-- The document `create_snippet_jam` builds for `exRow`. -/
def exJam : JAMS :=
  { file_metadata := { title := Value.str "100032-3-0-0.wav", release := "1.0",
                       duration := 4 - 0, artist := "UrbanSound8K" }
    annotations := [{ nspace := "tag_open"
                      data := [{ time := 0, duration := 4 - 0,
                                 value := Value.str "dog_bark", confidence := 1 }]
                      duration := 4 - 0
                      annotation_metadata := (fill_annotation_metadata exRow).1
                      sandbox := exRow }] }

/-- A malformed row: `start`, `end` and `class` are missing, so
`create_snippet_jam` raises (returns `none`). -/
def badRow : Row := [("slice_file_name", Value.str "x.wav")]

/-- An environment in which every save succeeds. -/
def cwAll : String → JAMS → Bool := fun _ _ => true

/-- A row whose clip span runs backwards: `end < start`. -/
def negRow : Row :=
  [("slice_file_name", Value.str "neg.wav"), ("start", Value.num 5),
   ("end", Value.num 2), ("class", Value.str "siren")]

/-! ### Shared inversion / evaluation lemmas -/

/-- Inversion: a successful `create_snippet_jam` call determines the full
shape of the produced document from the row's four required cells. -/
theorem create_snippet_jam_some (row : Row) (jam : JAMS)
    (h : create_snippet_jam row = some jam) :
    ∃ e s cls t, Row.get row "end" = some (Value.num e) ∧
      Row.get row "start" = some (Value.num s) ∧
      Row.get row "class" = some cls ∧
      Row.get row "slice_file_name" = some t ∧
      jam = { file_metadata := { title := t, release := "1.0", duration := e - s,
                                 artist := "UrbanSound8K" }
              annotations := [{ nspace := "tag_open"
                                data := [{ time := 0, duration := e - s,
                                           value := cls, confidence := 1 }]
                                duration := e - s
                                annotation_metadata := (fill_annotation_metadata row).1
                                sandbox := (fill_annotation_metadata row).2 }] } := by
  unfold create_snippet_jam fill_file_metadata at h
  split at h
  · rename_i eV sV clsV hE hS hC
    split at h
    · rename_i fm heq2
      split at heq2
      · rename_i tv ev sv hT hE2 hS2
        rw [hE] at hE2
        rw [hS] at hS2
        simp only [Option.some.injEq, Value.num.injEq] at hE2 hS2
        subst hE2
        subst hS2
        injection heq2 with heq2
        subst heq2
        simp only [Option.some.injEq] at h
        subst h
        exact ⟨eV, sV, clsV, tv, hE, hS, hC, hT, rfl⟩
      · exact absurd heq2 (by simp)
    · exact absurd h (by simp)
  · exact absurd h (by simp)

/-- Evaluation: on a row whose four required cells are present and whose
`start`/`end` are numeric, `create_snippet_jam` succeeds and produces
exactly the document shape of the source. -/
theorem create_snippet_jam_eval (row : Row) (e s : ℚ) (cls t : Value)
    (hE : Row.get row "end" = some (Value.num e))
    (hS : Row.get row "start" = some (Value.num s))
    (hC : Row.get row "class" = some cls)
    (hT : Row.get row "slice_file_name" = some t) :
    create_snippet_jam row = some
      { file_metadata := { title := t, release := "1.0", duration := e - s,
                           artist := "UrbanSound8K" }
        annotations := [{ nspace := "tag_open"
                          data := [{ time := 0, duration := e - s,
                                     value := cls, confidence := 1 }]
                          duration := e - s
                          annotation_metadata := (fill_annotation_metadata row).1
                          sandbox := (fill_annotation_metadata row).2 }] } := by
  unfold create_snippet_jam fill_file_metadata
  rw [hE, hS, hC, hT]

/-- Replacing `.wav` by `.jams` in a string that does not contain `.wav`
leaves it unchanged. -/
theorem replace_no_wav (l : List Char) (h : containsWav l = false) :
    replaceWavJams l = l := by
  induction l using replaceWavJams.induct with
  | case1 rest ih => rw [containsWav.eq_1] at h; exact absurd h (by simp)
  | case2 c rest hne ih =>
      rw [containsWav.eq_2 c rest hne] at h
      rw [replaceWavJams.eq_2 c rest hne, ih h]
  | case3 => rfl

/-- Replacing `.wav` by `.jams` in `stem ++ ".wav"` where the stem
contains no `.wav` rewrites exactly the trailing suffix. -/
theorem replace_append_wav (stem : List Char) (h : containsWav stem = false) :
    replaceWavJams (stem ++ ['.', 'w', 'a', 'v']) =
      stem ++ ['.', 'j', 'a', 'm', 's'] := by
  induction stem using containsWav.induct with
  | case1 rest => rw [containsWav.eq_1] at h; exact absurd h (by simp)
  | case2 c rest hne ih =>
      rw [containsWav.eq_2 c rest hne] at h
      have hne2 : ∀ (rest1 : List Char), c = '.' →
          rest ++ ['.', 'w', 'a', 'v'] = 'w' :: 'a' :: 'v' :: rest1 → False := by
        intro rest1 hc heq
        rcases rest with _ | ⟨r0, _ | ⟨r1, _ | ⟨r2, rest3⟩⟩⟩
        · simp at heq
        · simp [List.cons_append] at heq
        · simp [List.cons_append] at heq
        · simp [List.cons_append] at heq
          exact hne rest3 hc (by
            obtain ⟨h0, h1, h2, _⟩ := heq
            rw [h0, h1, h2])
      rw [List.cons_append, replaceWavJams.eq_2 c _ hne2, ih h, List.cons_append]
  | case3 => rfl

/-! ### Claims -/

/-- C1: for every input record with numeric `start` and `end`, the document
built by `create_snippet_jam` has `file_metadata.duration`, the single
event's `duration`, and the annotation's own `duration` all equal to
`end - start` — hence all equal to each other. -/
theorem c1_all_durations_end_minus_start (row : Row) (jam : JAMS) (s e : ℚ)
    (hs : Row.get row "start" = some (Value.num s))
    (he : Row.get row "end" = some (Value.num e))
    (h : create_snippet_jam row = some jam) :
    jam.file_metadata.duration = e - s ∧
    ∀ a ∈ jam.annotations, a.duration = e - s ∧
      (∀ o ∈ a.data, o.duration = e - s) ∧
      a.duration = jam.file_metadata.duration := by
  obtain ⟨e', s', cls, t, hE, hS, _, _, rfl⟩ := create_snippet_jam_some row jam h
  rw [he] at hE
  rw [hs] at hS
  simp only [Option.some.injEq, Value.num.injEq] at hE hS
  subst hE
  subst hS
  refine ⟨rfl, ?_⟩
  intro a ha
  simp only [List.mem_singleton] at ha
  subst ha
  refine ⟨rfl, ?_, rfl⟩
  intro o ho
  simp only [List.mem_singleton] at ho
  subst ho
  rfl

/-- Witness for C1 at the spec's example row. -/
theorem c1_witness :
    exJam.file_metadata.duration = 4 - 0 ∧
    ∀ a ∈ exJam.annotations, a.duration = 4 - 0 ∧
      (∀ o ∈ a.data, o.duration = 4 - 0) ∧
      a.duration = exJam.file_metadata.duration :=
  c1_all_durations_end_minus_start exRow exJam 0 4 (by decide) (by decide) rfl

/-- C3: every column of the input record appears, with its original value,
in the sandbox of the produced document's annotation (the row is stashed
whole into the sandbox). -/
theorem c3_sandbox_has_all_columns (row : Row) (jam : JAMS)
    (h : create_snippet_jam row = some jam) :
    ∀ a ∈ jam.annotations, a.sandbox = row ∧
      ∀ k v, Row.get row k = some v → Row.get a.sandbox k = some v := by
  obtain ⟨e, s, cls, t, _, _, _, _, rfl⟩ := create_snippet_jam_some row jam h
  intro a ha
  simp only [List.mem_singleton] at ha
  subst ha
  exact ⟨rfl, fun k v hv => hv⟩

/-- Witness for C3 at the spec's example row: the otherwise-unused `fold`
and `classID` columns are in the row, and the sandbox carries every
column. -/
theorem c3_witness :
    Row.get exRow "fold" = some (Value.num 5) ∧
    Row.get exRow "classID" = some (Value.num 3) ∧
    ∀ a ∈ exJam.annotations, a.sandbox = exRow ∧
      ∀ k v, Row.get exRow k = some v → Row.get a.sandbox k = some v :=
  ⟨by decide, by decide, c3_sandbox_has_all_columns exRow exJam rfl⟩

/-- C4: the single event of each produced annotation has `time = 0`,
`confidence = 1.0`, and its value is the record's `class` cell. -/
theorem c4_event_time_zero_confidence_one (row : Row) (jam : JAMS)
    (h : create_snippet_jam row = some jam) :
    ∀ a ∈ jam.annotations, ∀ o ∈ a.data,
      o.time = 0 ∧ o.confidence = 1 ∧ Row.get row "class" = some o.value := by
  obtain ⟨e, s, cls, t, _, _, hC, _, rfl⟩ := create_snippet_jam_some row jam h
  intro a ha
  simp only [List.mem_singleton] at ha
  subst ha
  intro o ho
  simp only [List.mem_singleton] at ho
  subst ho
  exact ⟨rfl, rfl, hC⟩

/-- Witness for C4 at the spec's example row. -/
theorem c4_witness :
    Row.get exRow "class" = some (Value.str "dog_bark") ∧
    ∀ a ∈ exJam.annotations, ∀ o ∈ a.data,
      o.time = 0 ∧ o.confidence = 1 ∧ Row.get exRow "class" = some o.value :=
  ⟨by decide, c4_event_time_zero_confidence_one exRow exJam rfl⟩

/-- C5: the produced file-metadata block has title equal to the record's
`slice_file_name` cell, release `"1.0"`, and artist `"UrbanSound8K"`. -/
theorem c5_file_metadata_fields (row : Row) (jam : JAMS)
    (h : create_snippet_jam row = some jam) :
    Row.get row "slice_file_name" = some jam.file_metadata.title ∧
    jam.file_metadata.release = "1.0" ∧
    jam.file_metadata.artist = "UrbanSound8K" := by
  obtain ⟨e, s, cls, t, _, _, _, hT, rfl⟩ := create_snippet_jam_some row jam h
  exact ⟨hT, rfl, rfl⟩

/-- Witness for C5 at the spec's example row. -/
theorem c5_witness :
    Row.get exRow "slice_file_name" = some exJam.file_metadata.title ∧
    exJam.file_metadata.release = "1.0" ∧
    exJam.file_metadata.artist = "UrbanSound8K" :=
  c5_file_metadata_fields exRow exJam rfl

/-- C6: a successful `create_snippet_jam` call yields a document with
exactly one annotation, of namespace `tag_open`, containing exactly one
event; processing that one record yields exactly one output file. -/
theorem c6_one_annotation_one_event_one_file (row : Row) (jam : JAMS)
    (h : create_snippet_jam row = some jam) :
    jam.annotations.length = 1 ∧
    (∀ a ∈ jam.annotations, a.nspace = "tag_open" ∧ a.data.length = 1) ∧
    ∀ cw d fj, process_row cw d row = some fj →
      process_metadata cw d [row] = ([fj], none) := by
  obtain ⟨e, s, cls, t, _, _, _, _, rfl⟩ := create_snippet_jam_some row jam h
  refine ⟨rfl, ?_, ?_⟩
  · intro a ha
    simp only [List.mem_singleton] at ha
    subst ha
    exact ⟨rfl, rfl⟩
  · intro cw d fj hfj
    simp [process_metadata, hfj]

/-- Witness for C6 at the spec's example row. -/
theorem c6_witness :
    exJam.annotations.length = 1 ∧
    (∀ a ∈ exJam.annotations, a.nspace = "tag_open" ∧ a.data.length = 1) ∧
    ∀ cw d fj, process_row cw d exRow = some fj →
      process_metadata cw d [exRow] = ([fj], none) :=
  c6_one_annotation_one_event_one_file exRow exJam rfl

/-- C7: on a record with numeric `start` and `end` where `end < start`,
the mapper raises no error and the negative value `end - start` propagates
into every duration of the produced document. -/
theorem c7_negative_duration_not_validated (row : Row) (s e : ℚ) (cls t : Value)
    (hs : Row.get row "start" = some (Value.num s))
    (he : Row.get row "end" = some (Value.num e))
    (hc : Row.get row "class" = some cls)
    (ht : Row.get row "slice_file_name" = some t)
    (hlt : e < s) :
    ∃ jam, create_snippet_jam row = some jam ∧
      jam.file_metadata.duration = e - s ∧ jam.file_metadata.duration < 0 ∧
      ∀ a ∈ jam.annotations, a.duration = e - s ∧ ∀ o ∈ a.data, o.duration = e - s := by
  refine ⟨_, create_snippet_jam_eval row e s cls t he hs hc ht, rfl, ?_, ?_⟩
  · exact sub_neg.mpr hlt
  · intro a ha
    simp only [List.mem_singleton] at ha
    subst ha
    refine ⟨rfl, ?_⟩
    intro o ho
    simp only [List.mem_singleton] at ho
    subst ho
    rfl

/-- Witness for C7 at a backwards row (`start = 5`, `end = 2`). -/
theorem c7_witness :
    ∃ jam, create_snippet_jam negRow = some jam ∧
      jam.file_metadata.duration = 2 - 5 ∧ jam.file_metadata.duration < 0 ∧
      ∀ a ∈ jam.annotations, a.duration = 2 - 5 ∧ ∀ o ∈ a.data, o.duration = 2 - 5 :=
  c7_negative_duration_not_validated negRow 5 2 (Value.str "siren") (Value.str "neg.wav")
    (by decide) (by decide) (by decide) (by decide) (by norm_num)

/-- C9: `create_snippet_jam` is a pure function of the record (equal
records give equal documents), and in a fully successful run the output
written for each row is exactly the row-local `process_row` image of that
row, independent of the other rows of the batch. -/
theorem c9_pure_function_of_row :
    (∀ r1 r2 : Row, r1 = r2 → create_snippet_jam r1 = create_snippet_jam r2) ∧
    (∀ cw d rows ws, process_metadata cw d rows = (ws, none) →
      mapOption (process_row cw d) rows = some ws) := by
  refine ⟨fun r1 r2 hr => by rw [hr], ?_⟩
  intro cw d rows
  induction rows with
  | nil =>
      intro ws h
      simp only [process_metadata, Prod.mk.injEq] at h
      rw [← h.1]
      rfl
  | cons r rs ih =>
      intro ws h
      cases hfj : process_row cw d r with
      | none => simp [process_metadata, hfj] at h
      | some fj =>
          simp only [process_metadata, hfj, Prod.mk.injEq] at h
          obtain ⟨h1, h2⟩ := h
          rw [Option.map_eq_none'] at h2
          have hp : process_metadata cw d rs = ((process_metadata cw d rs).1, none) := by
            rw [← h2]
          have hm := ih _ hp
          simp [mapOption, hfj, hm, ← h1]

/-- Witness for C9: determinism and row-locality at the example batch. -/
theorem c9_witness :
    create_snippet_jam exRow = create_snippet_jam exRow ∧
    mapOption (process_row cwAll "out") [exRow] = some [("out/100032-3-0-0.jams", exJam)] :=
  ⟨c9_pure_function_of_row.1 exRow exRow rfl,
   c9_pure_function_of_row.2 cwAll "out" [exRow] _ rfl⟩

/-- C8: if the run fails at row index `k`, the written outputs are exactly
the row-by-row images of rows `0..k-1` in table order, row `k` itself
produces no file, and the result does not depend on any row after `k`
(rows `k+1..` are never processed). -/
theorem c8_abort_semantics (cw : String → JAMS → Bool) (d : String)
    (rows : List Row) (ws : List (String × JAMS)) (k : Nat)
    (h : process_metadata cw d rows = (ws, some k)) :
    k < rows.length ∧
    mapOption (process_row cw d) (rows.take k) = some ws ∧
    mapOption (process_row cw d) (rows.take (k + 1)) = none ∧
    ∀ rows2, List.take (k + 1) rows2 = List.take (k + 1) rows →
      process_metadata cw d rows2 = (ws, some k) := by
  induction rows generalizing ws k with
  | nil => simp [process_metadata] at h
  | cons r rs ih =>
      cases hfj : process_row cw d r with
      | none =>
          simp only [process_metadata, hfj, Prod.mk.injEq] at h
          obtain ⟨h1, h2⟩ := h
          injection h2 with h2
          subst h2
          refine ⟨by simp, by rw [← h1]; rfl, by simp [mapOption, hfj], ?_⟩
          intro rows2 ht
          cases rows2 with
          | nil => simp at ht
          | cons r2 rs2 =>
              simp only [List.take, List.cons.injEq] at ht
              obtain ⟨rfl, -⟩ := ht
              simp [process_metadata, hfj, ← h1]
      | some fj =>
          simp only [process_metadata, hfj, Prod.mk.injEq] at h
          obtain ⟨h1, h2⟩ := h
          cases he : (process_metadata cw d rs).2 with
          | none => rw [he] at h2; simp at h2
          | some k' =>
              rw [he] at h2
              simp only [Option.map_some', Option.some.injEq] at h2
              subst h2
              have hp : process_metadata cw d rs = ((process_metadata cw d rs).1, some k') := by
                rw [← he]
              obtain ⟨hk', hm1, hm2, hinv⟩ := ih _ _ hp
              refine ⟨by simpa using Nat.succ_lt_succ hk', ?_, ?_, ?_⟩
              · rw [← h1]
                simp [List.take, mapOption, hfj, hm1]
              · simp [List.take, mapOption, hfj, hm2]
              · intro rows2 ht
                cases rows2 with
                | nil => simp at ht
                | cons r2 rs2 =>
                    simp only [List.take, List.cons.injEq] at ht
                    obtain ⟨rfl, ht2⟩ := ht
                    have := hinv rs2 ht2
                    simp [process_metadata, hfj, this, ← h1]

/-- Witness for C8: a batch whose second row is malformed fails at index
1; the first row's file is written, the second produces none, and the
third row is irrelevant. -/
theorem c8_witness :
    1 < ([exRow, badRow, exRow] : List Row).length ∧
    mapOption (process_row cwAll "out") (([exRow, badRow, exRow] : List Row).take 1) =
      some [("out/100032-3-0-0.jams", exJam)] ∧
    mapOption (process_row cwAll "out") (([exRow, badRow, exRow] : List Row).take 2) = none ∧
    ∀ rows2, List.take 2 rows2 = List.take 2 ([exRow, badRow, exRow] : List Row) →
      process_metadata cwAll "out" rows2 = ([("out/100032-3-0-0.jams", exJam)], some 1) :=
  c8_abort_semantics cwAll "out" [exRow, badRow, exRow]
    [("out/100032-3-0-0.jams", exJam)] 1 rfl

/-- C2 is wrong as stated: `.replace(".wav", ".jams")` rewrites every
occurrence of `.wav`, not only a trailing suffix. For
`slice_file_name = "a.wav.wav"` the code produces `out/a.jams.jams`,
while replacing only the trailing `.wav` (changing no other character)
would give `out/a.wav.jams`. -/
theorem c2_counterexample :
    out_file "out" [("slice_file_name", Value.str "a.wav.wav")] = some "out/a.jams.jams" ∧
    joinPath "out" "a.wav.jams" = "out/a.wav.jams" ∧
    "out/a.jams.jams" ≠ "out/a.wav.jams" :=
  ⟨by decide, by decide, by decide⟩

/-- C2 (amended): the output filename is `slice_file_name` with every
occurrence of `.wav` replaced by `.jams`, joined to the output directory;
when `.wav` occurs only as a trailing suffix this replaces exactly that
suffix and changes no other character. -/
theorem c2_amended_replace_all (d : String) (row : Row) (name : String)
    (hn : Row.getStr row "slice_file_name" = some name) :
    out_file d row = some (joinPath d (String.mk (replaceWavJams name.data))) ∧
    ∀ stem : List Char, name.data = stem ++ ['.', 'w', 'a', 'v'] →
      containsWav stem = false →
      replaceWavJams name.data = stem ++ ['.', 'j', 'a', 'm', 's'] := by
  constructor
  · unfold out_file
    rw [hn]
    rfl
  · intro stem hstem hwav
    rw [hstem, replace_append_wav stem hwav]

/-- Witness for the amended C2 at the spec's example filename. -/
theorem c2_witness :
    out_file "out" exRow =
      some (joinPath "out" (String.mk (replaceWavJams ("100032-3-0-0.wav" : String).data))) ∧
    ∀ stem : List Char, ("100032-3-0-0.wav" : String).data = stem ++ ['.', 'w', 'a', 'v'] →
      containsWav stem = false →
      replaceWavJams ("100032-3-0-0.wav" : String).data = stem ++ ['.', 'j', 'a', 'm', 's'] :=
  c2_amended_replace_all "out" exRow "100032-3-0-0.wav" (by decide)

/-- C10: when `slice_file_name` contains no `.wav` substring at all, the
derived output filename is the name unchanged, joined to the output
directory (no `.jams` extension is appended). -/
theorem c10_no_wav_name_unchanged (d : String) (row : Row) (name : String)
    (hn : Row.getStr row "slice_file_name" = some name)
    (hw : containsWav name.data = false) :
    out_file d row = some (joinPath d name) := by
  unfold out_file
  rw [hn]
  simp only [Option.map_some']
  rw [replace_no_wav name.data hw]

/-- Witness for C10 at a name with no `.wav` occurrence. -/
theorem c10_witness :
    out_file "out" [("slice_file_name", Value.str "clip.aiff")] =
      some (joinPath "out" "clip.aiff") :=
  c10_no_wav_name_unchanged "out" [("slice_file_name", Value.str "clip.aiff")]
    "clip.aiff" (by decide) (by decide)
